import Mathlib

/-!
Verification of the certchain ledger (`src/bin/blockchain.py`).

The development shallowly embeds the Python module: the `Certchain` class
becomes a state structure with pure state-passing methods, Python dicts and
JSON values become an inductive `Json` type, `hashlib.sha256(...).hexdigest()`
becomes an executable SHA-256 over byte lists, and the sorted-key
`json.dumps` becomes an executable serializer.  Wall-clock timestamps
(`time.time()`) are modelled as natural numbers supplied by the caller, since
they are an external input to every sealing operation.
-/

namespace SHA256

/-- Truncation to a 32-bit word (`% 2^32`). -/
def mod32 (x : Nat) : Nat := x % 4294967296

/-- 32-bit right rotation. -/
def rotr (n x : Nat) : Nat := mod32 ((x >>> n) ||| (x <<< (32 - n)))

/-- The 64 SHA-256 round constants of FIPS 180-4 (written in decimal). -/
def K : List Nat :=
  [1116352408, 1899447441, 3049323471, 3921009573, 961987163, 1508970993,
   2453635748, 2870763221, 3624381080, 310598401, 607225278, 1426881987,
   1925078388, 2162078206, 2614888103, 3248222580, 3835390401, 4022224774,
   264347078, 604807628, 770255983, 1249150122, 1555081692, 1996064986,
   2554220882, 2821834349, 2952996808, 3210313671, 3336571891, 3584528711,
   113926993, 338241895, 666307205, 773529912, 1294757372, 1396182291,
   1695183700, 1986661051, 2177026350, 2456956037, 2730485921, 2820302411,
   3259730800, 3345764771, 3516065817, 3600352804, 4094571909, 275423344,
   430227734, 506948616, 659060556, 883997877, 958139571, 1322822218,
   1537002063, 1747873779, 1955562222, 2024104815, 2227730452, 2361852424,
   2428436474, 2756734187, 3204031479, 3329325298]

/-- The eight 32-bit words of a SHA-256 state. -/
structure Hash8 where
  a : Nat
  b : Nat
  c : Nat
  d : Nat
  e : Nat
  f : Nat
  g : Nat
  h : Nat
deriving Repr, DecidableEq

/-- The SHA-256 initial hash value of FIPS 180-4 (written in decimal). -/
def initHash : Hash8 :=
  ⟨1779033703, 3144134277, 1013904242, 2773480762, 1359893119, 2600822924, 528734635, 1541459225⟩

/-- Big-endian 8-byte encoding of a (64-bit) length. -/
def be64 (n : Nat) : List Nat :=
  [(n >>> 56) % 256, (n >>> 48) % 256, (n >>> 40) % 256, (n >>> 32) % 256,
   (n >>> 24) % 256, (n >>> 16) % 256, (n >>> 8) % 256, n % 256]

/-- SHA-256 message padding: append `0x80`, zero bytes up to 56 mod 64, then
the message bit length, big-endian in 8 bytes. -/
def pad (msg : List Nat) : List Nat :=
  let padZeros := (119 - msg.length % 64) % 64
  msg ++ 0x80 :: (List.replicate padZeros 0 ++ be64 (8 * msg.length))

/-- Big-endian grouping of bytes into 32-bit words. -/
def bytesToWords : List Nat → List Nat
  | b0 :: b1 :: b2 :: b3 :: rest =>
      ((b0 <<< 24) ||| (b1 <<< 16) ||| (b2 <<< 8) ||| b3) :: bytesToWords rest
  | _ => []

/-- Split a byte list into 64-byte chunks; the fuel argument (initially the
length of the list) makes the recursion structural. -/
def chunksAux : Nat → List Nat → List (List Nat)
  | 0, _ => []
  | _, [] => []
  | fuel + 1, l => l.take 64 :: chunksAux fuel (l.drop 64)

/-- Split a byte list into 64-byte chunks. -/
def chunks (l : List Nat) : List (List Nat) := chunksAux l.length l

/-- Extend the 16 words of a chunk to the 64-entry message schedule. -/
def extendW (w : Array Nat) : Array Nat :=
  (List.range 48).foldl (fun acc i =>
    let w15 := acc.getD (i + 1) 0
    let w2 := acc.getD (i + 14) 0
    let s0 := rotr 7 w15 ^^^ rotr 18 w15 ^^^ (w15 >>> 3)
    let s1 := rotr 17 w2 ^^^ rotr 19 w2 ^^^ (w2 >>> 10)
    acc.push (mod32 (acc.getD i 0 + s0 + acc.getD (i + 9) 0 + s1))) w

/-- One SHA-256 compression round; `kw` pairs the round constant with the
scheduled message word. -/
def round (st : Hash8) (kw : Nat × Nat) : Hash8 :=
  let S1 := rotr 6 st.e ^^^ rotr 11 st.e ^^^ rotr 25 st.e
  let ch := (st.e &&& st.f) ^^^ ((st.e ^^^ 0xffffffff) &&& st.g)
  let temp1 := mod32 (st.h + S1 + ch + kw.1 + kw.2)
  let S0 := rotr 2 st.a ^^^ rotr 13 st.a ^^^ rotr 22 st.a
  let maj := (st.a &&& st.b) ^^^ (st.a &&& st.c) ^^^ (st.b &&& st.c)
  let temp2 := mod32 (S0 + maj)
  ⟨mod32 (temp1 + temp2), st.a, st.b, st.c, mod32 (st.d + temp1), st.e, st.f, st.g⟩

/-- Compress one 64-byte chunk into the running hash state. -/
def compressChunk (h0 : Hash8) (chunk : List Nat) : Hash8 :=
  let ws := (extendW (Array.mk (bytesToWords chunk))).toList
  let st := (K.zip ws).foldl round h0
  ⟨mod32 (h0.a + st.a), mod32 (h0.b + st.b), mod32 (h0.c + st.c), mod32 (h0.d + st.d),
   mod32 (h0.e + st.e), mod32 (h0.f + st.f), mod32 (h0.g + st.g), mod32 (h0.h + st.h)⟩

/-- The SHA-256 digest (as eight 32-bit words) of a byte list. -/
def sha256 (msg : List Nat) : Hash8 := (chunks (pad msg)).foldl compressChunk initHash

/-- Lower-case hexadecimal digit. -/
def hexChar (n : Nat) : Char := if n < 10 then Char.ofNat (48 + n) else Char.ofNat (87 + n)

/-- The eight hexadecimal characters of a 32-bit word, most significant first. -/
def wordHex (w : Nat) : List Char :=
  [hexChar ((w >>> 28) &&& 15), hexChar ((w >>> 24) &&& 15), hexChar ((w >>> 20) &&& 15),
   hexChar ((w >>> 16) &&& 15), hexChar ((w >>> 12) &&& 15), hexChar ((w >>> 8) &&& 15),
   hexChar ((w >>> 4) &&& 15), hexChar (w &&& 15)]

/-- `hashlib.sha256(msg).hexdigest()`: the 64-character lower-case hexadecimal
representation of the SHA-256 digest of `msg`. -/
def hexdigest (msg : List Nat) : String :=
  let d := sha256 msg
  String.mk (wordHex d.a ++ wordHex d.b ++ wordHex d.c ++ wordHex d.d ++
             wordHex d.e ++ wordHex d.f ++ wordHex d.g ++ wordHex d.h)

/-- UTF-8 encoding of a single character. -/
def utf8Char (c : Char) : List Nat :=
  let n := c.toNat
  if n < 128 then [n]
  else if n < 2048 then [192 ||| (n >>> 6), 128 ||| (n &&& 63)]
  else if n < 65536 then [224 ||| (n >>> 12), 128 ||| ((n >>> 6) &&& 63), 128 ||| (n &&& 63)]
  else [240 ||| (n >>> 18), 128 ||| ((n >>> 12) &&& 63), 128 ||| ((n >>> 6) &&& 63),
        128 ||| (n &&& 63)]

/-- Python's `str.encode()`: the UTF-8 bytes of a string. -/
def encodeStr (s : String) : List Nat := (s.data.map utf8Char).flatten

end SHA256

/-- A JSON value, as handled by the Python module: integers, strings, arrays
and objects (dicts with insertion-ordered string keys). -/
inductive Json where
  | jnum (n : Int)
  | jstr (s : String)
  | jarr (xs : List Json)
  | jobj (kvs : List (String × Json))
deriving Repr

/-- The six-character escape `\uXXXX` used by `json.dumps` for non-ASCII and
control characters. -/
def uEscape (n : Nat) : List Char :=
  ['\\', 'u', SHA256.hexChar ((n >>> 12) &&& 15), SHA256.hexChar ((n >>> 8) &&& 15),
   SHA256.hexChar ((n >>> 4) &&& 15), SHA256.hexChar (n &&& 15)]

/-- Escaping of one character inside a JSON string literal, following
`json.dumps` with its default ASCII-only output. -/
def escapeChar (c : Char) : List Char :=
  if c = '"' then ['\\', '"']
  else if c = '\\' then ['\\', '\\']
  else if c = Char.ofNat 8 then ['\\', 'b']
  else if c = Char.ofNat 9 then ['\\', 't']
  else if c = Char.ofNat 10 then ['\\', 'n']
  else if c = Char.ofNat 12 then ['\\', 'f']
  else if c = Char.ofNat 13 then ['\\', 'r']
  else if c.toNat < 32 then uEscape c.toNat
  else if c.toNat < 127 then [c]
  else if c.toNat < 65536 then uEscape c.toNat
  else uEscape (55296 + ((c.toNat - 65536) >>> 10)) ++ uEscape (56320 + ((c.toNat - 65536) &&& 1023))

/-- A quoted JSON string literal. -/
def quoteStr (s : String) : String := String.mk ('"' :: ((s.data.map escapeChar).flatten ++ ['"']))

/-- Insert a key-value pair into a key-sorted association list. -/
def insertKV (p : String × Json) : List (String × Json) → List (String × Json)
  | [] => [p]
  | q :: rest => if p.1 < q.1 then p :: q :: rest else q :: insertKV p rest

/-- Sort an association list by key (Python's `sorted` on dict keys). -/
def sortKVs (l : List (String × Json)) : List (String × Json) := l.foldr insertKV []

theorem mem_insertKV {p q : String × Json} : ∀ {l}, q ∈ insertKV p l → q = p ∨ q ∈ l
  | [], h => by simpa [insertKV] using h
  | x :: rest, h => by
    by_cases hlt : p.1 < x.1
    · simpa [insertKV, hlt, or_assoc] using h
    · simp only [insertKV, hlt, if_false, List.mem_cons] at h
      rcases h with h | h
      · exact Or.inr (by simp [h])
      · rcases mem_insertKV h with h' | h'
        · exact Or.inl h'
        · exact Or.inr (List.mem_cons_of_mem _ h')

theorem mem_sortKVs {q : String × Json} : ∀ {l}, q ∈ sortKVs l → q ∈ l
  | [], h => by simp [sortKVs] at h
  | x :: rest, h => by
    simp only [sortKVs, List.foldr_cons] at h
    rcases mem_insertKV h with h' | h'
    · simp [h']
    · exact List.mem_cons_of_mem _ (mem_sortKVs h')

/-- `json.dumps(v, sort_keys=True)` with the default separators: object keys
are emitted in sorted order, items joined by a comma-space, keys and values
by a colon-space. -/
def Json.dumps : Json → String
  | .jnum n => toString n
  | .jstr s => quoteStr s
  | .jarr xs => "[" ++ String.intercalate ", " (xs.attach.map (fun x => Json.dumps x.1)) ++ "]"
  | .jobj kvs =>
      "\x7b" ++ String.intercalate ", "
        ((sortKVs kvs).attach.map (fun kv => quoteStr kv.1.1 ++ ": " ++ Json.dumps kv.1.2)) ++ "\x7d"
termination_by j => sizeOf j
decreasing_by
  · have := List.sizeOf_lt_of_mem x.2
    simp only [Json.jarr.sizeOf_spec]
    omega
  · have h2 := List.sizeOf_lt_of_mem (mem_sortKVs kv.2)
    have h3 : sizeOf kv.1.2 < sizeOf kv.1 := by
      cases kv.1 with
      | mk a b => simp only [Prod.mk.sizeOf_spec]; omega
    simp only [Json.jobj.sizeOf_spec]
    omega

/-- Python truthiness of a JSON value (used by the `previous_hash or ...`
fallback in `new_block`): zero, the empty string, and empty containers are
falsy. -/
def Json.truthy : Json → Bool
  | .jnum n => n != 0
  | .jstr s => s != ""
  | .jarr xs => !xs.isEmpty
  | .jobj kvs => !kvs.isEmpty

/-- A certificate record, as built by `Certchain.new_certificate`: a dict with
six fields, whose values come verbatim from the submitted JSON. -/
structure Record where
  certifier : Json
  certifier_name : Json
  recipient : Json
  certificate_id : Json
  certificate_name : Json
  expiration_date : Json
deriving Repr

/-- The dict of a record, in Python insertion order. -/
def Record.toJson (r : Record) : Json :=
  .jobj [("certifier", r.certifier), ("certifier_name", r.certifier_name),
         ("recipient", r.recipient), ("certificate_id", r.certificate_id),
         ("certificate_name", r.certificate_name), ("expiration_date", r.expiration_date)]

/-- A block of the chain, as built by `Certchain.new_block`. -/
structure Block where
  index : Nat
  timestamp : Nat
  certificates : List Record
  proof : Int
  previous_hash : Json
deriving Repr

/-- The dict of a block, in the insertion order of `Certchain.new_block`.
Note the records live under the key `certificates`; there is no
`transactions` key. -/
def Block.toDict (b : Block) : List (String × Json) :=
  [("index", .jnum b.index), ("timestamp", .jnum b.timestamp),
   ("certificates", .jarr (b.certificates.map Record.toJson)),
   ("proof", .jnum b.proof), ("previous_hash", b.previous_hash)]

/-- The block dict as a JSON value. -/
def Block.toJson (b : Block) : Json := .jobj b.toDict

/-- The state of the `Certchain` class: the list of sealed blocks and the
pending certificate buffer. -/
structure Certchain where
  chain : List Block
  current_certificates : List Record
deriving Repr

namespace Certchain

/-- `Certchain.hash`: SHA-256 hex digest of the sorted-key JSON dump of a
block. -/
def hash (block : Block) : String :=
  SHA256.hexdigest (SHA256.encodeStr (Json.dumps block.toJson))

/-- `Certchain.valid_proof`: does the SHA-256 hex digest of the decimal
concatenation of `last_proof` and `proof` start with four zero characters? -/
def valid_proof (last_proof proof : Int) : Bool :=
  let guess := SHA256.encodeStr (toString last_proof ++ toString proof)
  let guess_hash := SHA256.hexdigest guess
  guess_hash.take 4 == "0000"

/-- `Certchain.proof_of_work`: starting from `proof = 0`, increment until
`valid_proof last_proof proof` holds; i.e. the least satisfying natural
number.  The existence hypothesis is exactly the termination condition of the
Python `while` loop. -/
def proof_of_work (last_proof : Int) (h : ∃ p : Nat, valid_proof last_proof p = true) : Nat :=
  Nat.find h

/-- `Certchain.new_block`: build a block from the pending buffer, the given
proof and previous hash (falling back to the hash of the last chain block
when the given one is falsy), reset the buffer, append the block.  The `none`
result models the `IndexError` raised when the fallback reads `chain[-1]` on
an empty chain; no caller reaches it. -/
def new_block (c : Certchain) (proof : Int) (previous_hash : Json) (timestamp : Nat) :
    Option (Block × Certchain) :=
  match (if previous_hash.truthy then some previous_hash
         else (c.chain.getLast?).map (fun last => Json.jstr (hash last))) with
  | none => none
  | some ph =>
      let block : Block :=
        { index := c.chain.length + 1
          timestamp := timestamp
          certificates := c.current_certificates
          proof := proof
          previous_hash := ph }
      some (block, { chain := c.chain ++ [block], current_certificates := [] })

/-- `Certchain.__init__`: empty chain and buffer, then the genesis block via
`new_block(previous_hash=1, proof=100)`.  The unreachable `none` branch keeps
the function total. -/
def init (timestamp : Nat) : Certchain :=
  match new_block ⟨[], []⟩ 100 (.jnum 1) timestamp with
  | some (_, c) => c
  | none => ⟨[], []⟩

/-- `Certchain.last_block`: `chain[-1]`, `none` on an empty chain (where
Python would raise `IndexError`). -/
def last_block (c : Certchain) : Option Block := c.chain.getLast?

/-- `Certchain.new_certificate`: append the record built from the six
arguments to the pending buffer and return `last_block['index'] + 1`. -/
def new_certificate (c : Certchain)
    (certifier certifier_name recipient certificate_id certificate_name expiration_date : Json) :
    Option (Nat × Certchain) :=
  let c' : Certchain :=
    { c with current_certificates := c.current_certificates ++
        [⟨certifier, certifier_name, recipient, certificate_id, certificate_name,
          expiration_date⟩] }
  c'.last_block.map (fun last => (last.index + 1, c'))

end Certchain

/-- The six keys required by the `/transactions/new` route. -/
def requiredKeys : List String :=
  ["certifier", "certifier_name", "recipient", "certificate_id", "certificate_name",
   "expiration_date"]

/-- `values[k]` for a key known to be present (the route reads keys only
after the presence check). -/
def lookupD (values : List (String × Json)) (k : String) : Json :=
  (values.lookup k).getD (.jnum 0)

/-- The `/transactions/new` Flask route: reject with `('Missing values', 400)`
unless all six required keys are present in the posted JSON, otherwise buffer
the record and answer 201 with the prospective block index.  The `none`
result models an uncaught `IndexError` from `last_block` (unreachable: the
chain always holds at least the genesis block). -/
def route_new_certificate (c : Certchain) (values : List (String × Json)) :
    Option ((String × Nat) × Certchain) :=
  if requiredKeys.all (fun k => (values.lookup k).isSome) then
    (Certchain.new_certificate c (lookupD values "certifier") (lookupD values "certifier_name")
        (lookupD values "recipient") (lookupD values "certificate_id")
        (lookupD values "certificate_name") (lookupD values "expiration_date")).map
      (fun r => (("Transaction will be added to the Block " ++ toString r.1, 201), r.2))
  else some (("Missing values", 400), c)

/-- The `/mine` Flask route: read the last block's proof, run the proof of
work, hash the last block, seal a new block, then build the response dict.
The response reads `block['transactions']`, modelled by a dict lookup; when
the key is absent the route raises `KeyError` (response `none`) but the block
has already been appended, so the state component keeps the sealed chain.
The hypotheses are the conditions under which the Python code terminates
normally up to the sealing: a non-empty chain and a reachable proof. -/
def route_mine (c : Certchain) (t : Nat) (hne : c.chain ≠ [])
    (h : ∃ p : Nat, Certchain.valid_proof (c.chain.getLast hne).proof p = true) :
    Option (List (String × Json)) × Certchain :=
  let last_block := c.chain.getLast hne
  let proof : Int := Certchain.proof_of_work last_block.proof h
  let previous_hash := Certchain.hash last_block
  match Certchain.new_block c proof (.jstr previous_hash) t with
  | some (block, c') =>
      match (Block.toDict block).lookup "transactions" with
      | some tx =>
          (some [("message", .jstr "New Block Forged"), ("index", .jnum block.index),
                 ("transactions", tx), ("proof", .jnum block.proof),
                 ("previous_hash", block.previous_hash)], c')
      | none => (none, c')
  | none => (none, c)

/-- One observable state transition of the running module: a record
submission (`Certchain.new_certificate`, reached from the
`/transactions/new` route) or a seal (`/mine` route). -/
inductive Step : Certchain → Certchain → Prop where
  | submit {c c' : Certchain} (f1 f2 f3 f4 f5 f6 : Json) (i : Nat)
      (hs : Certchain.new_certificate c f1 f2 f3 f4 f5 f6 = some (i, c')) : Step c c'
  | mine (c : Certchain) (t : Nat) (hne : c.chain ≠ [])
      (h : ∃ p : Nat, Certchain.valid_proof (c.chain.getLast hne).proof p = true) :
      Step c (route_mine c t hne h).2

/-- States reachable from a freshly constructed `Certchain` by submit and
seal operations. -/
inductive Reachable : Certchain → Prop where
  | init (t : Nat) : Reachable (Certchain.init t)
  | step {c c' : Certchain} : Reachable c → Step c c' → Reachable c'

set_option maxRecDepth 1000000

/-- A SHA-256 hex digest is a 64-character string, in particular non-empty. -/
theorem hexdigest_ne_empty (msg : List Nat) : SHA256.hexdigest msg ≠ "" := by
  simp only [SHA256.hexdigest, SHA256.wordHex]
  intro hcon
  have := congrArg String.data hcon
  simp at this

/-- A block hash is truthy, so `new_block` stores it verbatim. -/
theorem truthy_jstr_hash (b : Block) : Json.truthy (.jstr (Certchain.hash b)) = true := by
  simp only [Json.truthy, bne_iff_ne, ne_eq]
  exact hexdigest_ne_empty _

/-- `new_block` with a truthy previous hash: the stored block and the
resulting state, explicitly. -/
theorem new_block_truthy (c : Certchain) (proof : Int) (previous_hash : Json) (timestamp : Nat)
    (hph : previous_hash.truthy = true) :
    Certchain.new_block c proof previous_hash timestamp =
      some (⟨c.chain.length + 1, timestamp, c.current_certificates, proof, previous_hash⟩,
        ⟨c.chain ++ [⟨c.chain.length + 1, timestamp, c.current_certificates, proof,
          previous_hash⟩], []⟩) := by
  simp [Certchain.new_block, hph]

/-- The freshly constructed state, explicitly. -/
theorem init_eq (t : Nat) :
    Certchain.init t = ⟨[⟨1, t, [], 100, Json.jnum 1⟩], []⟩ := rfl

/-- The block sealed by the `/mine` route. -/
def minedBlock (c : Certchain) (hne : c.chain ≠ [])
    (h : ∃ p : Nat, Certchain.valid_proof (c.chain.getLast hne).proof p = true) (t : Nat) :
    Block :=
  { index := c.chain.length + 1, timestamp := t, certificates := c.current_certificates,
    proof := (Certchain.proof_of_work (c.chain.getLast hne).proof h : Int),
    previous_hash := .jstr (Certchain.hash (c.chain.getLast hne)) }

/-- The state after the `/mine` route: the mined block is appended and the
pending buffer is cleared (even though the response construction fails). -/
theorem route_mine_snd (c : Certchain) (t : Nat) (hne : c.chain ≠ [])
    (h : ∃ p : Nat, Certchain.valid_proof (c.chain.getLast hne).proof p = true) :
    (route_mine c t hne h).2 = ⟨c.chain ++ [minedBlock c hne h t], []⟩ := by
  simp only [route_mine, new_block_truthy _ _ _ _ (truthy_jstr_hash _), minedBlock]
  rfl

/-- A successful `new_certificate` call leaves the chain unchanged and
appends exactly the submitted record to the pending buffer. -/
theorem new_certificate_some {c c' : Certchain} {f1 f2 f3 f4 f5 f6 : Json} {i : Nat}
    (hs : Certchain.new_certificate c f1 f2 f3 f4 f5 f6 = some (i, c')) :
    c' = { c with current_certificates := c.current_certificates ++
            [⟨f1, f2, f3, f4, f5, f6⟩] } ∧
      ∃ hne : c.chain ≠ [], i = (c.chain.getLast hne).index + 1 := by
  simp only [Certchain.new_certificate, Certchain.last_block] at hs
  cases hgl : c.chain.getLast? with
  | none => rw [hgl] at hs; simp at hs
  | some last =>
      rw [hgl] at hs
      simp only [Option.map_some', Option.some.injEq, Prod.mk.injEq] at hs
      have hne : c.chain ≠ [] := by
        intro hnil
        rw [hnil] at hgl
        simp at hgl
      refine ⟨hs.2.symm, hne, ?_⟩
      rw [List.getLast?_eq_getLast c.chain hne] at hgl
      simp only [Option.some.injEq] at hgl
      rw [← hs.1, hgl]

/-- Chain linkage between consecutive blocks: the later block records the
hash of the earlier one. -/
def linked (a b : Block) : Prop := b.previous_hash = Json.jstr (Certchain.hash a)

/-- Proof-of-work admissibility between consecutive blocks. -/
def proofOK (a b : Block) : Prop := Certchain.valid_proof a.proof b.proof = true

/-- The inductive invariant of reachable states: non-empty chain, contiguous
1-based indices, hash linkage, and proof validity along the chain. -/
def ChainInv (c : Certchain) : Prop :=
  c.chain ≠ [] ∧
  (∀ i (hi : i < c.chain.length), (c.chain.get ⟨i, hi⟩).index = i + 1) ∧
  c.chain.Chain' linked ∧ c.chain.Chain' proofOK

theorem inv_init (t : Nat) : ChainInv (Certchain.init t) := by
  rw [init_eq]
  refine ⟨by simp, ?_, by simp, by simp⟩
  intro i hi
  simp only [List.length_singleton] at hi
  have : i = 0 := by omega
  subst this
  rfl

theorem inv_step {c c' : Certchain} (hc : ChainInv c) (hs : Step c c') : ChainInv c' := by
  cases hs with
  | submit f1 f2 f3 f4 f5 f6 i hsub =>
      have h1 := (new_certificate_some hsub).1
      subst h1
      exact hc
  | mine t hne h =>
      obtain ⟨-, hidx, hlink, hproof⟩ := hc
      rw [route_mine_snd]
      have hlast : c.chain.getLast? = some (c.chain.getLast hne) :=
        List.getLast?_eq_getLast c.chain hne
      refine ⟨by simp, ?_, ?_, ?_⟩
      · intro i hi
        simp only [List.get_eq_getElem]
        by_cases hilt : i < c.chain.length
        · rw [List.getElem_append_left hilt]
          have := hidx i hilt
          simp only [List.get_eq_getElem] at this
          exact this
        · have hieq : i = c.chain.length := by
            simp only [List.length_append, List.length_singleton] at hi
            omega
          rw [List.getElem_concat_length _ _ _ hieq]
          rw [hieq]
          rfl
      · refine List.Chain'.append hlink (List.chain'_singleton _) ?_
        intro x hx y hy
        rw [hlast] at hx
        simp only [Option.mem_def, Option.some.injEq] at hx
        simp only [List.head?_cons, Option.mem_def, Option.some.injEq] at hy
        subst hx
        subst hy
        rfl
      · refine List.Chain'.append hproof (List.chain'_singleton _) ?_
        intro x hx y hy
        rw [hlast] at hx
        simp only [Option.mem_def, Option.some.injEq] at hx
        simp only [List.head?_cons, Option.mem_def, Option.some.injEq] at hy
        subst hx
        subst hy
        exact Nat.find_spec h

theorem reachable_inv {c : Certchain} (hr : Reachable c) : ChainInv c := by
  induction hr with
  | init t => exact inv_init t
  | step _ hs ih => exact inv_step ih hs

/-- The validity predicate as the specification words it: the hexadecimal
representation of the SHA-256 digest of the UTF-8 bytes of the decimal
concatenation of the two proofs begins with a run of four zero characters. -/
def specIsValid (last_proof proof : Int) : Prop :=
  List.take 4 (SHA256.hexdigest (SHA256.encodeStr (toString last_proof ++ toString proof))).data
    = ['0', '0', '0', '0']

/-- C1: `valid_proof` concatenates the decimal representations of
`last_proof` and `proof` with no separator, hashes the UTF-8 bytes with
SHA-256, and returns true iff the hex digest starts with four zero
characters; being a Lean function of its two integer arguments it is a
deterministic pure predicate. -/
theorem valid_proof_iff_spec (last_proof proof : Int) :
    Certchain.valid_proof last_proof proof = true ↔ specIsValid last_proof proof := by
  unfold Certchain.valid_proof specIsValid
  rw [beq_iff_eq, String.ext_iff, String.data_take]

/-- C2: `proof_of_work` returns the least natural number `p` with
`valid_proof last_proof p`; every smaller candidate fails the predicate, so
the search result is determined by `last_proof` alone. -/
theorem proof_of_work_finds_least (last_proof : Int)
    (h : ∃ p : Nat, Certchain.valid_proof last_proof p = true) :
    Certchain.valid_proof last_proof (Certchain.proof_of_work last_proof h) = true ∧
    ∀ m : Nat, m < Certchain.proof_of_work last_proof h →
      Certchain.valid_proof last_proof m = false := by
  refine ⟨Nat.find_spec h, fun m hm => ?_⟩
  have := Nat.find_min h hm
  simpa using this

/-- The proof search for the genesis proof 100 terminates: 35293 is a valid
proof (one concrete SHA-256 evaluation). -/
theorem pow_exists_100 : ∃ p : Nat, Certchain.valid_proof 100 p = true :=
  ⟨35293, by decide⟩

theorem proof_of_work_finds_least_witness :
    Certchain.valid_proof 100 (Certchain.proof_of_work 100 pow_exists_100) = true :=
  (proof_of_work_finds_least 100 pow_exists_100).1

/-- C6: a freshly constructed store consists of exactly the genesis block,
with index 1, proof 100, sentinel previous hash (the integer 1), and an
empty pending buffer. -/
theorem init_genesis (t : Nat) :
    Certchain.init t = ⟨[⟨1, t, [], 100, Json.jnum 1⟩], []⟩ :=
  init_eq t

/-- C5: sealing with a truthy previous hash appends exactly one block whose
index is the old chain length plus one, whose records are exactly the
pending buffer in submission order, whose proof and previous hash are the
supplied arguments; it resets the buffer, leaves the previously sealed
prefix unchanged, and returns the new block. -/
theorem new_block_seals_buffer (c : Certchain) (proof : Int) (previous_hash : Json)
    (timestamp : Nat) (hph : previous_hash.truthy = true) :
    Certchain.new_block c proof previous_hash timestamp =
      some (⟨c.chain.length + 1, timestamp, c.current_certificates, proof, previous_hash⟩,
        ⟨c.chain ++ [⟨c.chain.length + 1, timestamp, c.current_certificates, proof,
          previous_hash⟩], []⟩) :=
  new_block_truthy c proof previous_hash timestamp hph

theorem new_block_seals_buffer_witness :
    Certchain.new_block
        ⟨[], [⟨Json.jstr "A", Json.jstr "Alice Inc", Json.jstr "B", Json.jnum 1,
          Json.jstr "Cert1", Json.jstr "2030-01-01"⟩]⟩ 35293 (Json.jstr "abc") 9 =
      some (⟨1, 9, [⟨Json.jstr "A", Json.jstr "Alice Inc", Json.jstr "B", Json.jnum 1,
          Json.jstr "Cert1", Json.jstr "2030-01-01"⟩], 35293, Json.jstr "abc"⟩,
        ⟨[⟨1, 9, [⟨Json.jstr "A", Json.jstr "Alice Inc", Json.jstr "B", Json.jnum 1,
          Json.jstr "Cert1", Json.jstr "2030-01-01"⟩], 35293, Json.jstr "abc"⟩], []⟩) :=
  new_block_seals_buffer _ 35293 (Json.jstr "abc") 9 (by decide)

/-- The chain of a freshly constructed store is non-empty. -/
theorem init0_chain_ne : (Certchain.init 0).chain ≠ [] := by
  rw [init_eq]
  simp

/-- C10: when the supplied previous hash is falsy (`0`, the empty string, an
empty container) and the chain is non-empty, `new_block` stores the hash of
the current last block instead; the supplied value is stored verbatim
exactly when it is truthy. -/
theorem new_block_falsy_fallback (c : Certchain) (proof : Int) (previous_hash : Json)
    (timestamp : Nat) (hne : c.chain ≠ []) :
    (previous_hash.truthy = false →
      Certchain.new_block c proof previous_hash timestamp =
        some (⟨c.chain.length + 1, timestamp, c.current_certificates, proof,
            Json.jstr (Certchain.hash (c.chain.getLast hne))⟩,
          ⟨c.chain ++ [⟨c.chain.length + 1, timestamp, c.current_certificates, proof,
            Json.jstr (Certchain.hash (c.chain.getLast hne))⟩], []⟩)) ∧
    (previous_hash.truthy = true →
      Certchain.new_block c proof previous_hash timestamp =
        some (⟨c.chain.length + 1, timestamp, c.current_certificates, proof, previous_hash⟩,
          ⟨c.chain ++ [⟨c.chain.length + 1, timestamp, c.current_certificates, proof,
            previous_hash⟩], []⟩)) := by
  constructor
  · intro hph
    simp [Certchain.new_block, hph, List.getLast?_eq_getLast c.chain hne]
  · intro hph
    exact new_block_truthy c proof previous_hash timestamp hph

theorem new_block_falsy_fallback_witness :
    Certchain.new_block (Certchain.init 0) 7 (Json.jnum 0) 3 =
      some (⟨2, 3, [], 7,
          Json.jstr (Certchain.hash ((Certchain.init 0).chain.getLast init0_chain_ne))⟩,
        ⟨(Certchain.init 0).chain ++ [⟨2, 3, [], 7,
          Json.jstr (Certchain.hash ((Certchain.init 0).chain.getLast init0_chain_ne))⟩], []⟩) :=
  (new_block_falsy_fallback (Certchain.init 0) 7 (Json.jnum 0) 3 init0_chain_ne).1 (by decide)

/-- C3: in every reachable state, each non-genesis block's `previous_hash`
equals the store's hash (SHA-256 of the sorted-key JSON serialization) of
the block one position earlier in the chain. -/
theorem reachable_previous_hash_linked {c : Certchain} (hr : Reachable c) (i : Nat)
    (hi : i + 1 < c.chain.length) :
    (c.chain.get ⟨i + 1, hi⟩).previous_hash
      = Json.jstr (Certchain.hash (c.chain.get ⟨i, Nat.lt_of_succ_lt hi⟩)) := by
  have hchain := (reachable_inv hr).2.2.1
  rw [List.chain'_iff_get] at hchain
  exact hchain i (by omega)

/-- The proof search started from the genesis proof terminates (the genesis
block of `init 0` carries proof 100, and 35293 is a valid successor). -/
theorem pow_exists_init0 :
    ∃ p : Nat,
      Certchain.valid_proof ((Certchain.init 0).chain.getLast init0_chain_ne).proof p = true :=
  ⟨35293, by decide⟩

/-- A concrete two-block state: fresh store, then one `/mine`. -/
def minedState : Certchain :=
  (route_mine (Certchain.init 0) 1 init0_chain_ne pow_exists_init0).2

theorem minedState_reachable : Reachable minedState :=
  Reachable.step (Reachable.init 0)
    (Step.mine (Certchain.init 0) 1 init0_chain_ne pow_exists_init0)

theorem minedState_chain :
    minedState.chain = (Certchain.init 0).chain ++
      [minedBlock (Certchain.init 0) init0_chain_ne pow_exists_init0 1] := by
  show ((route_mine (Certchain.init 0) 1 init0_chain_ne pow_exists_init0).2).chain = _
  rw [route_mine_snd]

theorem minedState_two_le : 0 + 1 < minedState.chain.length := by
  have h2 : (Certchain.init 0).chain.length = 1 := by rw [init_eq]; rfl
  rw [minedState_chain]
  simp only [List.length_append, List.length_singleton, h2]
  omega

theorem reachable_previous_hash_linked_witness :
    (minedState.chain.get ⟨0 + 1, minedState_two_le⟩).previous_hash
      = Json.jstr (Certchain.hash
          (minedState.chain.get ⟨0, Nat.lt_of_succ_lt minedState_two_le⟩)) :=
  reachable_previous_hash_linked minedState_reachable 0 minedState_two_le

/-- C4: in every reachable state, each non-genesis block's proof passes
`valid_proof` together with its predecessor's proof. -/
theorem reachable_proofs_valid {c : Certchain} (hr : Reachable c) (i : Nat)
    (hi : i + 1 < c.chain.length) :
    Certchain.valid_proof (c.chain.get ⟨i, Nat.lt_of_succ_lt hi⟩).proof
      (c.chain.get ⟨i + 1, hi⟩).proof = true := by
  have hchain := (reachable_inv hr).2.2.2
  rw [List.chain'_iff_get] at hchain
  exact hchain i (by omega)

theorem reachable_proofs_valid_witness :
    Certchain.valid_proof
      (minedState.chain.get ⟨0, Nat.lt_of_succ_lt minedState_two_le⟩).proof
      (minedState.chain.get ⟨0 + 1, minedState_two_le⟩).proof = true :=
  reachable_proofs_valid minedState_reachable 0 minedState_two_le

/-- C7: in every reachable state, `new_certificate` returns the chain length
plus one (by the index invariant, `last_block['index'] + 1` equals this) and
its only mutation is appending the record to the pending buffer. -/
theorem submit_returns_prospective_index {c : Certchain} (hr : Reachable c)
    (f1 f2 f3 f4 f5 f6 : Json) :
    Certchain.new_certificate c f1 f2 f3 f4 f5 f6 =
      some (c.chain.length + 1,
        ⟨c.chain, c.current_certificates ++ [⟨f1, f2, f3, f4, f5, f6⟩]⟩) := by
  obtain ⟨hne, hidx, -, -⟩ := reachable_inv hr
  have hlast : c.chain.getLast? = some (c.chain.getLast hne) :=
    List.getLast?_eq_getLast c.chain hne
  have hpos : 0 < c.chain.length := List.length_pos.mpr hne
  have h0 : c.chain.length - 1 < c.chain.length := by omega
  have hlen : (c.chain.getLast hne).index = c.chain.length := by
    have hg : c.chain.getLast hne = c.chain.get ⟨c.chain.length - 1, h0⟩ := by
      rw [List.getLast_eq_getElem]
      simp [List.get_eq_getElem]
    rw [hg, hidx (c.chain.length - 1) h0]
    omega
  simp only [Certchain.new_certificate, Certchain.last_block]
  rw [hlast]
  simp only [Option.map_some']
  rw [hlen]

theorem submit_returns_prospective_index_witness :
    Certchain.new_certificate (Certchain.init 0) (Json.jstr "A") (Json.jstr "Alice Inc")
        (Json.jstr "B") (Json.jnum 1) (Json.jstr "Cert1") (Json.jstr "2030-01-01") =
      some ((Certchain.init 0).chain.length + 1,
        ⟨(Certchain.init 0).chain, (Certchain.init 0).current_certificates ++
          [⟨Json.jstr "A", Json.jstr "Alice Inc", Json.jstr "B", Json.jnum 1,
            Json.jstr "Cert1", Json.jstr "2030-01-01"⟩]⟩) :=
  submit_returns_prospective_index (Reachable.init 0) _ _ _ _ _ _

/-- A submission whose six keys are all present but malformed: empty
`certifier`, non-numeric `certificate_id`, non-date `expiration_date`. -/
def vals0 : List (String × Json) :=
  [("certifier", .jstr ""), ("certifier_name", .jstr "Alice Inc"), ("recipient", .jstr "B"),
   ("certificate_id", .jstr "not-a-number"), ("certificate_name", .jstr "Cert1"),
   ("expiration_date", .jstr "not-a-date")]

/-- C8 counterexample: a submission with an empty string field, a
non-numeric `certificate_id` and an invalid `expiration_date` is not
rejected; it is buffered verbatim and answered with 201, so well-formedness
is not validated at submission time. -/
theorem route_accepts_malformed_record :
    route_new_certificate (Certchain.init 0) vals0 =
      some (("Transaction will be added to the Block 2", 201),
        ⟨[⟨1, 0, [], 100, Json.jnum 1⟩],
          [⟨Json.jstr "", Json.jstr "Alice Inc", Json.jstr "B", Json.jstr "not-a-number",
            Json.jstr "Cert1", Json.jstr "not-a-date"⟩]⟩) := rfl

/-- C8 (amended): the submission route validates key presence only.  When
any of the six keys is missing it fails with `('Missing values', 400)` and
the state is unchanged; when all six keys are present the record is buffered
verbatim, with no well-formedness check of the values. -/
theorem route_checks_key_presence_only (c : Certchain) (values : List (String × Json))
    (hne : c.chain ≠ []) :
    (requiredKeys.all (fun k => (values.lookup k).isSome) = false →
      route_new_certificate c values = some (("Missing values", 400), c)) ∧
    (requiredKeys.all (fun k => (values.lookup k).isSome) = true →
      route_new_certificate c values =
        some (("Transaction will be added to the Block " ++
            toString ((c.chain.getLast hne).index + 1), 201),
          ⟨c.chain, c.current_certificates ++
            [⟨lookupD values "certifier", lookupD values "certifier_name",
              lookupD values "recipient", lookupD values "certificate_id",
              lookupD values "certificate_name", lookupD values "expiration_date"⟩]⟩)) := by
  constructor
  · intro hmiss
    simp [route_new_certificate, hmiss]
  · intro hall
    simp only [route_new_certificate, hall, if_true]
    simp only [Certchain.new_certificate, Certchain.last_block]
    rw [List.getLast?_eq_getLast c.chain hne]
    simp only [Option.map_some']

theorem route_checks_key_presence_only_witness :
    route_new_certificate (Certchain.init 0) vals0 =
      some (("Transaction will be added to the Block " ++
          toString (((Certchain.init 0).chain.getLast init0_chain_ne).index + 1), 201),
        ⟨(Certchain.init 0).chain, (Certchain.init 0).current_certificates ++
          [⟨lookupD vals0 "certifier", lookupD vals0 "certifier_name", lookupD vals0 "recipient",
            lookupD vals0 "certificate_id", lookupD vals0 "certificate_name",
            lookupD vals0 "expiration_date"⟩]⟩) :=
  (route_checks_key_presence_only (Certchain.init 0) vals0 init0_chain_ne).2 (by decide)

/-- C9: every sealed block keeps its records under the key `certificates`
and has no `transactions` key, so the `/mine` response construction, which
reads `block['transactions']`, finds no value and the route raises for every
sealed block. -/
theorem sealed_block_has_no_transactions_key :
    (∀ (c : Certchain) (proof : Int) (ph : Json) (t : Nat) (b : Block) (c' : Certchain),
      Certchain.new_block c proof ph t = some (b, c') →
        (Block.toDict b).lookup "certificates"
            = some (Json.jarr (b.certificates.map Record.toJson)) ∧
          (Block.toDict b).lookup "transactions" = none) ∧
    (∀ (c : Certchain) (t : Nat) (hne : c.chain ≠ [])
      (h : ∃ p : Nat, Certchain.valid_proof (c.chain.getLast hne).proof p = true),
      (route_mine c t hne h).1 = none) := by
  constructor
  · intro c proof ph t b c' _
    exact ⟨rfl, rfl⟩
  · intro c t hne h
    simp only [route_mine, new_block_truthy _ _ _ _ (truthy_jstr_hash _)]
    rfl

theorem sealed_block_has_no_transactions_key_witness :
    (Block.toDict ⟨1, 0, [], 100, Json.jnum 1⟩).lookup "transactions" = none ∧
    (route_mine (Certchain.init 0) 1 init0_chain_ne pow_exists_init0).1 = none :=
  ⟨(sealed_block_has_no_transactions_key.1 ⟨[], []⟩ 100 (Json.jnum 1) 0
      ⟨1, 0, [], 100, Json.jnum 1⟩ ⟨[⟨1, 0, [], 100, Json.jnum 1⟩], []⟩ rfl).2,
    sealed_block_has_no_transactions_key.2 (Certchain.init 0) 1 init0_chain_ne pow_exists_init0⟩
